import Mathlib

/-!
Verification of the fundbot swap core: a shallow embedding of the asset
notation, the resolver best-match selection, the raw-amount normalization,
the swap manager's quote selection and error synthesis, the thorchain
provider's balance-gated quoting and status mapping, and the TTL cache.

Go strings are modelled as lists of characters; Go maps iterated in loops
are modelled as association lists; `*big.Int` is modelled as `Int` (or
`Nat` where the source only produces digit strings); `float64` amounts are
modelled as exact rationals `ℚ`, with Go's `int64(x)` conversion modelled
as truncation toward zero; fallible calls (`error` returns) are modelled
with `Except`.
-/

/-- A Go string, modelled as its list of characters. -/
abbrev GoStr := List Char

/-- Model of `strings.SplitN(s, sep, 2)` for a one-character separator:
`some (before, after)` when `sep` occurs in `s` (split at the first
occurrence), `none` when it does not (Go returns a single part). Also
models `strings.Index` followed by slicing, as in `ParseAsset`. -/
def splitOnceAt (sep : Char) : GoStr → Option (GoStr × GoStr)
  | [] => none
  | c :: rest =>
    if c = sep then some ([], rest)
    else
      match splitOnceAt sep rest with
      | some (a, b) => some (c :: a, b)
      | none => none

/-- Model of `strings.ToUpper` (character-wise upper-casing). -/
def goToUpper (s : GoStr) : GoStr := s.map Char.toUpper

/-- `swaps.Asset`: a blockchain asset in Thorchain notation
(`CHAIN.SYMBOL` or `CHAIN.SYMBOL-0xCONTRACT`), from src/swaps/asset.go. -/
structure Asset where
  chain : GoStr
  symbol : GoStr
  contractAddress : GoStr
deriving Repr, DecidableEq

/-- `swaps.ParseAsset` from src/swaps/asset.go. Parse failure
(`fmt.Errorf`) is modelled as `none`. -/
def ParseAsset (s : GoStr) : Option Asset :=
  match splitOnceAt '.' s with
  | none => none
  | some (p0, p1) =>
    if p0 = [] ∨ p1 = [] then none
    else
      match splitOnceAt '-' p1 with
      | some (sym, contract) => some ⟨goToUpper p0, goToUpper sym, contract⟩
      | none => some ⟨goToUpper p0, goToUpper p1, []⟩

/-- `Asset.String` from src/swaps/asset.go: renders Thorchain notation. -/
def Asset.string (a : Asset) : GoStr :=
  if a.contractAddress ≠ [] then a.chain ++ '.' :: (a.symbol ++ '-' :: a.contractAddress)
  else a.chain ++ '.' :: a.symbol

/-- A valid asset per the spec's data model (§3): non-empty upper-case
chain code and non-empty upper-case symbol (no lower-case characters, and
no occurrence of the structural separators `.` in the chain or `-` in the
symbol). The contract address is unconstrained. -/
def Asset.Valid (a : Asset) : Prop :=
  a.chain ≠ [] ∧ a.symbol ≠ [] ∧
  (∀ c ∈ a.chain, c.toUpper = c ∧ c ≠ '.') ∧
  (∀ c ∈ a.symbol, c.toUpper = c ∧ c ≠ '-')

instance (a : Asset) : Decidable a.Valid := by
  unfold Asset.Valid; infer_instance

lemma splitOnceAt_eq_none {sep : Char} : ∀ {s : GoStr}, sep ∉ s → splitOnceAt sep s = none := by
  intro s h
  induction s with
  | nil => rfl
  | cons c rest ih =>
    simp only [List.mem_cons, not_or] at h
    simp only [splitOnceAt, if_neg (Ne.symm h.1), ih h.2]

lemma splitOnceAt_append {sep : Char} :
    ∀ {pre : GoStr} (post : GoStr), sep ∉ pre →
      splitOnceAt sep (pre ++ sep :: post) = some (pre, post) := by
  intro pre
  induction pre with
  | nil => intro post _; simp [splitOnceAt]
  | cons c rest ih =>
    intro post h
    simp only [List.mem_cons, not_or] at h
    have ihh := ih post h.2
    simp only [List.cons_append, splitOnceAt, if_neg (Ne.symm h.1)]
    rw [List.append_eq, ihh]

lemma splitOnceAt_fst_nil {sep : Char} {s rest : GoStr}
    (h : splitOnceAt sep s = some ([], rest)) : s = sep :: rest := by
  cases s with
  | nil => simp [splitOnceAt] at h
  | cons c t =>
    by_cases hc : c = sep
    · subst hc
      simp [splitOnceAt] at h
      rw [h]
    · simp only [splitOnceAt, if_neg hc] at h
      cases ht : splitOnceAt sep t with
      | none => rw [ht] at h; simp at h
      | some p => rw [ht] at h; cases p; simp at h

lemma goToUpper_fixed : ∀ {s : GoStr}, (∀ c ∈ s, c.toUpper = c) → goToUpper s = s := by
  intro s h
  induction s with
  | nil => rfl
  | cons c rest ih =>
    simp only [goToUpper, List.map_cons]
    rw [h c (List.mem_cons_self c rest)]
    have := ih fun x hx => h x (List.mem_cons_of_mem c hx)
    simpa [goToUpper] using this

lemma goToUpper_ne_nil {s : GoStr} (h : s ≠ []) : goToUpper s ≠ [] := by
  cases s with
  | nil => exact absurd rfl h
  | cons c rest => simp [goToUpper]

/-- Under validity, parsing the rendered notation recovers the asset. -/
lemma parse_string_of_valid (a : Asset) (h : a.Valid) : ParseAsset a.string = some a := by
  obtain ⟨chain, symbol, contract⟩ := a
  obtain ⟨hc, hs, hchain, hsym⟩ := h
  have hdot : '.' ∉ chain := fun hm => (hchain _ hm).2 rfl
  have hdash : '-' ∉ symbol := fun hm => (hsym _ hm).2 rfl
  have hupc : goToUpper chain = chain := goToUpper_fixed fun c hm => (hchain c hm).1
  have hups : goToUpper symbol = symbol := goToUpper_fixed fun c hm => (hsym c hm).1
  by_cases hct : contract = []
  · subst hct
    have hren : (Asset.string ⟨chain, symbol, []⟩) = chain ++ '.' :: symbol := by
      simp [Asset.string]
    simp only [ParseAsset, hren, splitOnceAt_append _ hdot, splitOnceAt_eq_none hdash]
    simp [hupc, hups, hc, hs]
  · have hren : (Asset.string ⟨chain, symbol, contract⟩) =
        chain ++ '.' :: (symbol ++ '-' :: contract) := by
      simp [Asset.string, hct]
    simp only [ParseAsset, hren, splitOnceAt_append _ hdot, splitOnceAt_append _ hdash]
    simp [hupc, hups, hc, hs]

/-- C6: for every valid asset, rendering, parsing the rendered string, and
rendering again yields the same string:
`Render (Parse (Render a)) = Render a`. -/
theorem C6_asset_roundtrip (a : Asset) (h : a.Valid) :
    (ParseAsset a.string).map Asset.string = some a.string := by
  rw [parse_string_of_valid a h]
  rfl

theorem C6_asset_roundtrip_witness :
    (⟨"ETH".toList, "USDC".toList, "0xa0b8".toList⟩ : Asset).Valid ∧
    (ParseAsset (Asset.string ⟨"ETH".toList, "USDC".toList, "0xa0b8".toList⟩)).map Asset.string =
      some (Asset.string ⟨"ETH".toList, "USDC".toList, "0xa0b8".toList⟩) :=
  ⟨by decide, C6_asset_roundtrip _ (by decide)⟩

/-- C5 counterexample: `ParseAsset "ETH.-0xabc"` succeeds (the part after
the dot, `-0xabc`, is non-empty, so the emptiness guard passes), yet the
resulting Asset has an empty Symbol, because the dash is found at index 0
and `symbolPart[:0]` is empty. So a successful parse does not guarantee a
non-empty Symbol, refuting the claim as stated. -/
theorem C5_counterexample :
    ParseAsset ("ETH.-0xabc".toList) = some ⟨"ETH".toList, [], "0xabc".toList⟩ := by
  decide

/-- C5 (amended): on every successful parse the Chain is non-empty, and
the Symbol is non-empty except in the single case the counterexample
forces: when the substring after the first dot begins with a dash (the
symbol slice before the dash is then empty). -/
theorem C5_parse_nonempty (s : GoStr) (a : Asset) (h : ParseAsset s = some a) :
    a.chain ≠ [] ∧
    (a.symbol = [] → ∃ p0 rest, splitOnceAt '.' s = some (p0, '-' :: rest)) := by
  unfold ParseAsset at h
  split at h
  · exact absurd h (by simp)
  · rename_i p0 p1 hsp
    split at h
    · exact absurd h (by simp)
    · rename_i hemp
      push_neg at hemp
      obtain ⟨h0, h1⟩ := hemp
      split at h
      · rename_i sym contract hds
        simp only [Option.some.injEq] at h
        subst h
        refine ⟨goToUpper_ne_nil h0, fun hsymnil => ?_⟩
        have hsnil : sym = [] := by
          cases sym with
          | nil => rfl
          | cons c t => simp [goToUpper] at hsymnil
        subst hsnil
        exact ⟨p0, contract, by rw [hsp, splitOnceAt_fst_nil hds]⟩
      · rename_i hds
        simp only [Option.some.injEq] at h
        subst h
        exact ⟨goToUpper_ne_nil h0, fun hsymnil => absurd hsymnil (goToUpper_ne_nil h1)⟩

theorem C5_parse_nonempty_witness :
    (⟨"BTC".toList, "BTC".toList, []⟩ : Asset).chain ≠ [] ∧
    ((⟨"BTC".toList, "BTC".toList, []⟩ : Asset).symbol = [] →
      ∃ p0 rest, splitOnceAt '.' ("BTC.BTC".toList) = some (p0, '-' :: rest)) :=
  C5_parse_nonempty ("BTC.BTC".toList) _ (by decide)

/-- Model of `big.Int.SetString(s, 10)` on the well-formed digit strings
the normalization theorems quantify over: the base-10 value of the digit
list. -/
def digitsVal (s : GoStr) : Nat :=
  s.foldl (fun acc c => 10 * acc + (c.toNat - '0'.toNat)) 0

lemma digitsVal_foldl_init (s : GoStr) :
    ∀ n : Nat,
      s.foldl (fun acc c => 10 * acc + (c.toNat - '0'.toNat)) n =
        n * 10 ^ s.length + s.foldl (fun acc c => 10 * acc + (c.toNat - '0'.toNat)) 0 := by
  induction s with
  | nil => intro n; simp
  | cons c t ih =>
    intro n
    simp only [List.foldl_cons, List.length_cons]
    rw [ih (10 * n + (c.toNat - '0'.toNat)), ih (10 * 0 + (c.toNat - '0'.toNat))]
    ring

lemma digitsVal_append (a b : GoStr) :
    digitsVal (a ++ b) = digitsVal a * 10 ^ b.length + digitsVal b := by
  unfold digitsVal
  rw [List.foldl_append, digitsVal_foldl_init b (List.foldl _ 0 a)]

/-- The fractional-part adjustment in `parseToBigInt`: truncate to 8
digits, then right-pad with `'0'` to exactly 8 digits. -/
def padTo8 (frac : GoStr) : GoStr :=
  let f := if 8 < frac.length then frac.take 8 else frac
  f ++ List.replicate (8 - f.length) '0'

/-- `parseToBigInt` from src/simpleswap/provider.go lines 228-255 and
src/nearintents/client.go lines 349-372 (byte-identical bodies): removes
the decimal point after truncating/padding the fractional part to 8
digits; an integer string is multiplied by `1e8`. -/
def parseToBigInt (s : GoStr) : Nat :=
  match splitOnceAt '.' s with
  | none => digitsVal s * 100000000
  | some (p0, p1) => digitsVal (p0 ++ padTo8 p1)

lemma padTo8_of_le_length {f : GoStr} (h : 8 ≤ f.length) : padTo8 f = f.take 8 := by
  unfold padTo8
  by_cases h8 : 8 < f.length
  · simp [h8, List.length_take, Nat.min_eq_left (le_of_lt h8)]
  · have hlen : f.length = 8 := le_antisymm (not_lt.mp h8) h
    simp [h8, hlen, List.take_of_length_le (le_of_eq hlen)]

lemma length_take_eight {f : GoStr} (h : 8 ≤ f.length) : (f.take 8).length = 8 := by
  simp [List.length_take, Nat.min_eq_left h]

/-- C4: the raw-amount normalization maps `"0.00123456"` to `123456` and
`"5"` to `500000000`; and for any integer part `i` (dot-free) and any
fractional part `f` of at least 8 digits, the digits beyond the eighth are
ignored (truncation, not rounding): the result agrees with the result on
the 8-digit truncation of `f` and equals `val(i) * 1e8 + val(take 8 f)`. -/
theorem C4_raw_normalization :
    parseToBigInt ("0.00123456".toList) = 123456 ∧
    parseToBigInt ("5".toList) = 500000000 ∧
    (∀ i f : GoStr, '.' ∉ i → 8 ≤ f.length →
      parseToBigInt (i ++ '.' :: f) = parseToBigInt (i ++ '.' :: f.take 8) ∧
      parseToBigInt (i ++ '.' :: f) = digitsVal i * 100000000 + digitsVal (f.take 8)) := by
  refine ⟨by decide, by decide, fun i f hi hf => ?_⟩
  have htake : 8 ≤ (f.take 8).length := le_of_eq (length_take_eight hf).symm
  have h1 : parseToBigInt (i ++ '.' :: f) = digitsVal (i ++ f.take 8) := by
    unfold parseToBigInt
    rw [splitOnceAt_append _ hi]
    show digitsVal (i ++ padTo8 f) = _
    rw [padTo8_of_le_length hf]
  have h2 : parseToBigInt (i ++ '.' :: f.take 8) = digitsVal (i ++ (f.take 8).take 8) := by
    unfold parseToBigInt
    rw [splitOnceAt_append _ hi]
    show digitsVal (i ++ padTo8 (f.take 8)) = _
    rw [padTo8_of_le_length htake]
  have h3 : (f.take 8).take 8 = f.take 8 := by
    simp [List.take_take]
  have h4 : digitsVal (i ++ f.take 8) = digitsVal i * 100000000 + digitsVal (f.take 8) := by
    rw [digitsVal_append, length_take_eight hf]
    norm_num
  exact ⟨by rw [h1, h2, h3], by rw [h1, h4]⟩

theorem C4_raw_normalization_witness :
    ('.' ∉ ("0".toList : GoStr)) ∧ 8 ≤ ("123456789".toList : GoStr).length ∧
    (parseToBigInt ("0".toList ++ '.' :: "123456789".toList) =
       parseToBigInt ("0".toList ++ '.' :: ("123456789".toList).take 8) ∧
     parseToBigInt ("0".toList ++ '.' :: "123456789".toList) =
       digitsVal ("0".toList) * 100000000 + digitsVal (("123456789".toList).take 8)) :=
  ⟨by decide, by decide, C4_raw_normalization.2.2 _ _ (by decide) (by decide)⟩

/-- `cgSearchResult` from the resolver's CoinGecko client
(src/unnamed/part_002): a search hit whose `market_cap_rank` is a `*int`
(`none` models a nil pointer / JSON null). -/
structure CgSearchResult where
  id : GoStr
  name : GoStr
  symbol : GoStr
  marketCapRank : Option Int
deriving Repr, DecidableEq

/-- Model of `strings.EqualFold` (case-insensitive equality). -/
def eqFold (a b : GoStr) : Bool := goToUpper a == goToUpper b

/-- The `*p` dereference of a rank pointer; only applied on branches the
source guards with a non-nil check. -/
def derefRank (r : Option Int) : Int := r.getD 0

/-- Loop of `coingeckoClient.bestMatch` (src/unnamed/part_002 lines
98-117) with the running `best` as an accumulator. A coin whose rank is
nil or 0 is taken only when `best` is still nil; otherwise a coin replaces
`best` when `best` has a nil rank or a strictly larger rank. -/
def bestMatchLoop (symbol : GoStr) :
    Option CgSearchResult → List CgSearchResult → Option CgSearchResult
  | best, [] => best
  | best, coin :: rest =>
    if eqFold coin.symbol symbol = false then bestMatchLoop symbol best rest
    else if coin.marketCapRank = none ∨ coin.marketCapRank = some 0 then
      match best with
      | none => bestMatchLoop symbol (some coin) rest
      | some _ => bestMatchLoop symbol best rest
    else
      match best with
      | none => bestMatchLoop symbol (some coin) rest
      | some b =>
        if b.marketCapRank = none ∨ derefRank coin.marketCapRank < derefRank b.marketCapRank then
          bestMatchLoop symbol (some coin) rest
        else bestMatchLoop symbol best rest

/-- `coingeckoClient.bestMatch`. -/
def bestMatch (coins : List CgSearchResult) (symbol : GoStr) : Option CgSearchResult :=
  bestMatchLoop symbol none coins

/-- The claim's selection rule, written from the spec's words (not from
the source): a missing rank is infinite, so `specRankLT r r'` holds when
rank `r` is strictly better (lower) than `r'`. -/
def specRankLT : Option Int → Option Int → Bool
  | some a, some b => a < b
  | some _, none => true
  | none, _ => false

/-- The claim's best-match rule, written from the spec's words: among
symbol-matching entries keep the first entry of lowest rank (missing rank
= infinite, ties broken by catalog order, first wins). -/
def specBestLoop (symbol : GoStr) :
    Option CgSearchResult → List CgSearchResult → Option CgSearchResult
  | best, [] => best
  | best, coin :: rest =>
    if eqFold coin.symbol symbol = false then specBestLoop symbol best rest
    else
      match best with
      | none => specBestLoop symbol (some coin) rest
      | some b =>
        if specRankLT coin.marketCapRank b.marketCapRank then
          specBestLoop symbol (some coin) rest
        else specBestLoop symbol best rest

def specBestMatch (coins : List CgSearchResult) (symbol : GoStr) : Option CgSearchResult :=
  specBestLoop symbol none coins

/-- C3 counterexample: on a catalog whose first matching entry has rank 5
and whose second has rank 0, the code keeps the rank-5 entry (rank 0 falls
into the same guard as a nil rank, and once a ranked best exists it is
never replaced by that guard), while the claim's rule — lowest numeric
rank wins — selects the rank-0 entry. -/
theorem C3_counterexample :
    bestMatch
      [⟨"five".toList, "five".toList, "X".toList, some 5⟩,
       ⟨"zero".toList, "zero".toList, "X".toList, some 0⟩] ("X".toList) =
      some ⟨"five".toList, "five".toList, "X".toList, some 5⟩ ∧
    specBestMatch
      [⟨"five".toList, "five".toList, "X".toList, some 5⟩,
       ⟨"zero".toList, "zero".toList, "X".toList, some 0⟩] ("X".toList) =
      some ⟨"zero".toList, "zero".toList, "X".toList, some 0⟩ := by
  decide

lemma bestMatchLoop_eq_spec (symbol : GoStr) :
    ∀ (coins : List CgSearchResult) (best : Option CgSearchResult),
      (∀ c ∈ coins, c.marketCapRank ≠ some 0) →
      bestMatchLoop symbol best coins = specBestLoop symbol best coins := by
  intro coins
  induction coins with
  | nil => intro best _; rfl
  | cons coin rest ih =>
    intro best h
    have hcoin := h coin (List.mem_cons_self _ _)
    have hrest : ∀ c ∈ rest, c.marketCapRank ≠ some 0 :=
      fun c hc => h c (List.mem_cons_of_mem _ hc)
    simp only [bestMatchLoop, specBestLoop]
    by_cases hm : eqFold coin.symbol symbol = false
    · rw [if_pos hm, if_pos hm]
      exact ih best hrest
    · rw [if_neg hm, if_neg hm]
      cases hr : coin.marketCapRank with
      | none =>
        rw [if_pos (Or.inl (rfl : (none : Option Int) = none))]
        cases best with
        | none => exact ih _ hrest
        | some b =>
          have hsp2 : ¬ specRankLT none b.marketCapRank = true := by
            simp [specRankLT]
          dsimp only
          rw [if_neg hsp2]
          exact ih _ hrest
      | some cr =>
        have hcr : ¬(cr = 0) := fun hz => hcoin (by rw [hr, hz])
        have hguard : ¬((some cr : Option Int) = none ∨ (some cr : Option Int) = some 0) := by
          simp [hcr]
        rw [if_neg hguard]
        cases best with
        | none => exact ih _ hrest
        | some b =>
          dsimp only
          cases hbr : b.marketCapRank with
          | none =>
            rw [if_pos (Or.inl (rfl : (none : Option Int) = none))]
            have hsp2 : specRankLT (some cr) none = true := rfl
            rw [if_pos hsp2]
            exact ih _ hrest
          | some br =>
            by_cases hlt : cr < br
            · have hgo : (some br : Option Int) = none ∨
                  derefRank (some cr) < derefRank (some br) := by
                right; simpa [derefRank]
              rw [if_pos hgo]
              have hsp2 : specRankLT (some cr) (some br) = true := by
                simpa [specRankLT]
              rw [if_pos hsp2]
              exact ih _ hrest
            · have hgo : ¬((some br : Option Int) = none ∨
                  derefRank (some cr) < derefRank (some br)) := by
                simp [derefRank, hlt]
              rw [if_neg hgo]
              have hsp2 : ¬ specRankLT (some cr) (some br) = true := by
                simp [specRankLT, hlt]
              rw [if_neg hsp2]
              exact ih _ hrest

/-- C3 (amended): the best-match selection is exactly the spec's rule —
lowest market-cap rank among case-insensitive symbol matches, missing
rank treated as infinite, ties broken by catalog order — provided no
entry carries an explicit rank of 0; an explicit rank 0 (the case the
counterexample exhibits) is treated by the code like a missing rank when
the entry is considered, yet numerically when it sits in `best`. -/
theorem C3_best_match_amended (coins : List CgSearchResult) (symbol : GoStr)
    (h : ∀ c ∈ coins, c.marketCapRank ≠ some 0) :
    bestMatch coins symbol = specBestMatch coins symbol :=
  bestMatchLoop_eq_spec symbol coins none h

theorem C3_best_match_amended_witness :
    (∀ c ∈ [(⟨"a".toList, "a".toList, "Y".toList, some 5⟩ : CgSearchResult),
            ⟨"b".toList, "b".toList, "Y".toList, some 50⟩,
            ⟨"c".toList, "c".toList, "Y".toList, none⟩], c.marketCapRank ≠ some 0) ∧
    bestMatch
      [⟨"a".toList, "a".toList, "Y".toList, some 5⟩,
       ⟨"b".toList, "b".toList, "Y".toList, some 50⟩,
       ⟨"c".toList, "c".toList, "Y".toList, none⟩] ("Y".toList) =
    specBestMatch
      [⟨"a".toList, "a".toList, "Y".toList, some 5⟩,
       ⟨"b".toList, "b".toList, "Y".toList, some 50⟩,
       ⟨"c".toList, "c".toList, "Y".toList, none⟩] ("Y".toList) :=
  ⟨by decide, C3_best_match_amended _ _ (by decide)⟩

/-- `swaps.Quote` (src/swaps/provider.go). `ExtraData`
(`map[string]interface{}`, an untyped per-provider bag) is omitted: no
verified claim depends on it. `InputAmountUSD` (`float64`) is modelled as
ℚ; the `*big.Int` amounts as `Int`. -/
structure Quote where
  provider : GoStr
  fromAsset : Asset
  toAsset : Asset
  fromChain : GoStr
  inputAmountUSD : ℚ
  inputAmount : Int
  expectedOutput : GoStr
  expectedOutputRaw : Int
  memo : GoStr
  router : GoStr
  vaultAddress : GoStr
  expiry : Int
deriving DecidableEq

/-- The `swaps.Provider` interface restricted to the members the verified
claims exercise (`Name`, `Category`, `Quote`, `SupportsAsset`); `Execute`
and `CheckStatus` involve signing keys and are pure dispatch in the
Manager. `quote` is the venue call as a function of
(toAsset, usdAmount, destination, sender). -/
structure SwapProvider where
  name : GoStr
  category : GoStr
  quote : Asset → ℚ → GoStr → GoStr → Except GoStr (List Quote)
  supportsAsset : Asset → Bool

/-- `swaps.RoutingHint`. -/
structure RoutingHint where
  type : GoStr
  value : GoStr

/-- The Manager's error outcomes; each constructor corresponds to one
`fmt.Errorf` site in src/unnamed/part_006. The balance lines of the
insufficient-balance message are carried as (chain, balance) pairs rather
than formatted text. -/
inductive MgrError where
  | noProvidersMatchHint (value : GoStr)
  | insufficientBalance (usdAmount : ℚ) (toAsset : Asset) (balances : List (GoStr × Int))
  | noQuotesAvailable (toAsset : Asset)
deriving DecidableEq

/-- `swaps.Manager` (src/unnamed/part_006): the provider list plus the
environment read by the balance re-check — the RPC-client map (its key
set, in iteration order), membership in the USDC contract map, and the
`balances.USDCBalance` RPC call as a function of chain and sender. -/
structure Manager where
  providers : List SwapProvider
  rpcChains : List GoStr
  usdcContracts : GoStr → Bool
  usdcBalance : GoStr → GoStr → Except GoStr Int

/-- Go's `int64(x)` conversion, with the `float64` operand modelled as an
exact rational: truncation toward zero. -/
def int64Trunc (q : ℚ) : Int := Int.tdiv q.num (Int.ofNat q.den)

/-- `int64(usdAmount * 1e6)`: the required USDC threshold in smallest
(6-decimal) units. -/
def requiredUSDCmicro (usd : ℚ) : Int := int64Trunc (usd * 1000000)

/-- The switch inside `Manager.filterProviders`. -/
def hintMatches (hint : RoutingHint) (p : SwapProvider) : Bool :=
  if hint.type = ("provider".toList : GoStr) then p.name == hint.value
  else if hint.type = ("category".toList : GoStr) then p.category == hint.value
  else false

/-- `Manager.filterProviders` (src/unnamed/part_006 lines 65-90). -/
def Manager.filterProviders (m : Manager) (hint : RoutingHint) :
    Except MgrError (List SwapProvider) :=
  if hint.type = [] then Except.ok m.providers
  else if (m.providers.filter (hintMatches hint)).isEmpty then
    Except.error (MgrError.noProvidersMatchHint hint.value)
  else Except.ok (m.providers.filter (hintMatches hint))

/-- The inner loop of `Manager.BestQuote`: fold a venue's quotes into the
running best; `q.ExpectedOutputRaw.Cmp(best.ExpectedOutputRaw) > 0`
replaces the best. -/
def pickBetter : Option Quote → List Quote → Option Quote
  | best, [] => best
  | best, q :: rest =>
    match best with
    | none => pickBetter (some q) rest
    | some b =>
      if b.expectedOutputRaw < q.expectedOutputRaw then pickBetter (some q) rest
      else pickBetter (some b) rest

/-- The provider loop of `Manager.BestQuote`, instrumented with the list
of provider names whose `Quote` call was invoked (in order); the first
component is the source's running best. -/
def bestQuoteScan (toAsset : Asset) (usd : ℚ) (dest sender : GoStr) :
    Option Quote → List SwapProvider → Option Quote × List GoStr
  | best, [] => (best, [])
  | best, p :: rest =>
    match p.quote toAsset usd dest sender with
    | Except.error _ =>
      let r := bestQuoteScan toAsset usd dest sender best rest
      (r.1, p.name :: r.2)
    | Except.ok qs =>
      let r := bestQuoteScan toAsset usd dest sender (pickBetter best qs) rest
      (r.1, p.name :: r.2)

/-- The chain loop of `Manager.noQuotesError`: returns the balance lines
((chain, balance) pairs in chain order), the `allInsufficient` flag and
the `checkedAny` flag. Chains without a configured USDC contract and
chains whose balance RPC fails are skipped. -/
def noQuotesScan (m : Manager) (sender : GoStr) (required : Int) :
    List GoStr → List (GoStr × Int) × Bool × Bool
  | [] => ([], true, false)
  | chain :: rest =>
    if m.usdcContracts chain then
      match m.usdcBalance chain sender with
      | Except.error _ => noQuotesScan m sender required rest
      | Except.ok bal =>
        let r := noQuotesScan m sender required rest
        ((chain, bal) :: r.1, decide (bal < required) && r.2.1, true)
    else noQuotesScan m sender required rest

/-- `Manager.noQuotesError` (src/unnamed/part_006 lines 122-160). -/
def Manager.noQuotesError (m : Manager) (toAsset : Asset) (usd : ℚ) (sender : GoStr) :
    MgrError :=
  let r := noQuotesScan m sender (requiredUSDCmicro usd) m.rpcChains
  if r.2.2 && r.2.1 then MgrError.insufficientBalance usd toAsset r.1
  else MgrError.noQuotesAvailable toAsset

/-- `Manager.BestQuote` (src/unnamed/part_006 lines 35-63), paired with
the instrumentation trace of invoked providers. -/
def Manager.BestQuote (m : Manager) (toAsset : Asset) (usd : ℚ) (dest sender : GoStr)
    (hint : RoutingHint) : Except MgrError Quote × List GoStr :=
  match m.filterProviders hint with
  | Except.error e => (Except.error e, [])
  | Except.ok ps =>
    let r := bestQuoteScan toAsset usd dest sender none ps
    match r.1 with
    | none => (Except.error (m.noQuotesError toAsset usd sender), r.2)
    | some q => (Except.ok q, r.2)

/-- The union of the quote lists of the providers whose `Quote` call
succeeded, in provider order. -/
def successfulQuotes (toAsset : Asset) (usd : ℚ) (dest sender : GoStr) :
    List SwapProvider → List Quote
  | [] => []
  | p :: rest =>
    (match p.quote toAsset usd dest sender with
     | Except.ok qs => qs
     | Except.error _ => []) ++ successfulQuotes toAsset usd dest sender rest

lemma pickBetter_eq_none :
    ∀ (qs : List Quote) (best : Option Quote),
      pickBetter best qs = none ↔ best = none ∧ qs = [] := by
  intro qs
  induction qs with
  | nil =>
    intro best
    constructor
    · intro h; exact ⟨h, rfl⟩
    · intro h; exact h.1
  | cons q rest ih =>
    intro best
    cases best with
    | none =>
      simp only [pickBetter]
      rw [ih (some q)]
      simp
    | some b =>
      simp only [pickBetter]
      by_cases hlt : b.expectedOutputRaw < q.expectedOutputRaw
      · rw [if_pos hlt, ih (some q)]; simp
      · rw [if_neg hlt, ih (some b)]; simp

lemma pickBetter_mem :
    ∀ (qs : List Quote) (best : Option Quote) (r : Quote),
      pickBetter best qs = some r → best = some r ∨ r ∈ qs := by
  intro qs
  induction qs with
  | nil => intro best r h; exact Or.inl h
  | cons q rest ih =>
    intro best r h
    cases best with
    | none =>
      simp only [pickBetter] at h
      rcases ih (some q) r h with h1 | h2
      · right; simp at h1; simp [h1]
      · right; exact List.mem_cons_of_mem q h2
    | some b =>
      simp only [pickBetter] at h
      by_cases hlt : b.expectedOutputRaw < q.expectedOutputRaw
      · rw [if_pos hlt] at h
        rcases ih (some q) r h with h1 | h2
        · right; simp at h1; simp [h1]
        · right; exact List.mem_cons_of_mem q h2
      · rw [if_neg hlt] at h
        rcases ih (some b) r h with h1 | h2
        · left; exact h1
        · right; exact List.mem_cons_of_mem q h2

lemma pickBetter_ub :
    ∀ (qs : List Quote) (best : Option Quote) (r : Quote),
      pickBetter best qs = some r →
      (∀ q ∈ qs, q.expectedOutputRaw ≤ r.expectedOutputRaw) ∧
      (∀ b, best = some b → b.expectedOutputRaw ≤ r.expectedOutputRaw) := by
  intro qs
  induction qs with
  | nil =>
    intro best r h
    exact ⟨fun q hq => absurd hq (List.not_mem_nil q), fun b hb => by
      rw [hb] at h; exact le_of_eq (congrArg Quote.expectedOutputRaw (Option.some.inj h))⟩
  | cons q rest ih =>
    intro best r h
    cases best with
    | none =>
      simp only [pickBetter] at h
      obtain ⟨hrest, hacc⟩ := ih (some q) r h
      refine ⟨fun x hx => ?_, fun b hb => by simp at hb⟩
      rcases List.mem_cons.mp hx with rfl | hx2
      · exact hacc x rfl
      · exact hrest x hx2
    | some b =>
      simp only [pickBetter] at h
      by_cases hlt : b.expectedOutputRaw < q.expectedOutputRaw
      · rw [if_pos hlt] at h
        obtain ⟨hrest, hacc⟩ := ih (some q) r h
        refine ⟨fun x hx => ?_, fun c hc => ?_⟩
        · rcases List.mem_cons.mp hx with rfl | hx2
          · exact hacc x rfl
          · exact hrest x hx2
        · have hbq : b.expectedOutputRaw ≤ q.expectedOutputRaw := le_of_lt hlt
          have := hacc q rfl
          have hcb : c = b := Option.some.inj hc.symm
          rw [hcb]
          exact le_trans hbq this
      · rw [if_neg hlt] at h
        obtain ⟨hrest, hacc⟩ := ih (some b) r h
        refine ⟨fun x hx => ?_, fun c hc => ?_⟩
        · rcases List.mem_cons.mp hx with rfl | hx2
          · exact le_trans (not_lt.mp hlt) (hacc b rfl)
          · exact hrest x hx2
        · have hcb : c = b := Option.some.inj hc.symm
          rw [hcb]
          exact hacc b rfl

lemma pickBetter_append (xs ys : List Quote) :
    ∀ best : Option Quote, pickBetter best (xs ++ ys) = pickBetter (pickBetter best xs) ys := by
  induction xs with
  | nil => intro best; rfl
  | cons x xs ih =>
    intro best
    cases best with
    | none => simp only [List.cons_append, pickBetter]; exact ih (some x)
    | some b =>
      simp only [List.cons_append, pickBetter]
      by_cases hlt : b.expectedOutputRaw < x.expectedOutputRaw
      · rw [if_pos hlt, if_pos hlt]; exact ih (some x)
      · rw [if_neg hlt, if_neg hlt]; exact ih (some b)

lemma bestQuoteScan_fst (toAsset : Asset) (usd : ℚ) (dest sender : GoStr) :
    ∀ (ps : List SwapProvider) (best : Option Quote),
      (bestQuoteScan toAsset usd dest sender best ps).1 =
        pickBetter best (successfulQuotes toAsset usd dest sender ps) := by
  intro ps
  induction ps with
  | nil => intro best; rfl
  | cons p rest ih =>
    intro best
    simp only [bestQuoteScan, successfulQuotes]
    cases hq : p.quote toAsset usd dest sender with
    | error e => simp only [List.nil_append]; exact ih best
    | ok qs => simp only [pickBetter_append]; exact ih (pickBetter best qs)

/-- C1: with the hint filter passing (`ps` the filtered providers), if the
union of quotes from providers whose `Quote` call succeeded is non-empty,
`Manager.BestQuote` returns a member of that union whose
`ExpectedOutputRaw` is maximal over the whole union, for every provider
order; erroring providers are merely excluded. -/
theorem C1_best_quote_is_max (m : Manager) (toAsset : Asset) (usd : ℚ) (dest sender : GoStr)
    (hint : RoutingHint) (ps : List SwapProvider)
    (hf : m.filterProviders hint = Except.ok ps)
    (hne : successfulQuotes toAsset usd dest sender ps ≠ []) :
    ∃ q, (m.BestQuote toAsset usd dest sender hint).1 = Except.ok q ∧
      q ∈ successfulQuotes toAsset usd dest sender ps ∧
      ∀ r ∈ successfulQuotes toAsset usd dest sender ps,
        r.expectedOutputRaw ≤ q.expectedOutputRaw := by
  have hfst := bestQuoteScan_fst toAsset usd dest sender ps none
  cases hpick : pickBetter none (successfulQuotes toAsset usd dest sender ps) with
  | none =>
    exact absurd ((pickBetter_eq_none _ _).mp hpick).2 hne
  | some q =>
    refine ⟨q, ?_, ?_, ?_⟩
    · unfold Manager.BestQuote
      rw [hf]
      dsimp only
      rw [hfst, hpick]
    · rcases pickBetter_mem _ _ _ hpick with h1 | h2
      · exact absurd h1 (by simp)
      · exact h2
    · exact (pickBetter_ub _ _ _ hpick).1

theorem C1_best_quote_is_max_witness :
    ∃ q, (Manager.BestQuote
        ⟨[⟨"p1".toList, "dex".toList,
            fun _ _ _ _ => Except.ok
              [⟨"p1".toList, ⟨"BASE".toList, "USDC".toList, []⟩,
                ⟨"BTC".toList, "BTC".toList, []⟩, "base".toList, 100, 100000000,
                [], 100, [], [], [], 0⟩], fun _ => true⟩,
          ⟨"p2".toList, "dex".toList, fun _ _ _ _ => Except.error ("down".toList),
            fun _ => true⟩,
          ⟨"p3".toList, "private".toList,
            fun _ _ _ _ => Except.ok
              [⟨"p3".toList, ⟨"BASE".toList, "USDC".toList, []⟩,
                ⟨"BTC".toList, "BTC".toList, []⟩, "base".toList, 100, 100000000,
                [], 250, [], [], [], 0⟩], fun _ => true⟩,
          ⟨"p4".toList, "dex".toList,
            fun _ _ _ _ => Except.ok
              [⟨"p4".toList, ⟨"BASE".toList, "USDC".toList, []⟩,
                ⟨"BTC".toList, "BTC".toList, []⟩, "base".toList, 100, 100000000,
                [], 180, [], [], [], 0⟩], fun _ => true⟩],
          [], fun _ => false, fun _ _ => Except.error []⟩
        ⟨"BTC".toList, "BTC".toList, []⟩ 100 ("addr".toList) ("sender".toList)
        ⟨[], []⟩).1 = Except.ok q ∧
      q ∈ successfulQuotes ⟨"BTC".toList, "BTC".toList, []⟩ 100 ("addr".toList) ("sender".toList)
        (Manager.providers
          ⟨[⟨"p1".toList, "dex".toList,
              fun _ _ _ _ => Except.ok
                [⟨"p1".toList, ⟨"BASE".toList, "USDC".toList, []⟩,
                  ⟨"BTC".toList, "BTC".toList, []⟩, "base".toList, 100, 100000000,
                  [], 100, [], [], [], 0⟩], fun _ => true⟩,
            ⟨"p2".toList, "dex".toList, fun _ _ _ _ => Except.error ("down".toList),
              fun _ => true⟩,
            ⟨"p3".toList, "private".toList,
              fun _ _ _ _ => Except.ok
                [⟨"p3".toList, ⟨"BASE".toList, "USDC".toList, []⟩,
                  ⟨"BTC".toList, "BTC".toList, []⟩, "base".toList, 100, 100000000,
                  [], 250, [], [], [], 0⟩], fun _ => true⟩,
            ⟨"p4".toList, "dex".toList,
              fun _ _ _ _ => Except.ok
                [⟨"p4".toList, ⟨"BASE".toList, "USDC".toList, []⟩,
                  ⟨"BTC".toList, "BTC".toList, []⟩, "base".toList, 100, 100000000,
                  [], 180, [], [], [], 0⟩], fun _ => true⟩],
            [], fun _ => false, fun _ _ => Except.error []⟩) ∧
      ∀ r ∈ successfulQuotes ⟨"BTC".toList, "BTC".toList, []⟩ 100 ("addr".toList)
          ("sender".toList)
          (Manager.providers
            ⟨[⟨"p1".toList, "dex".toList,
                fun _ _ _ _ => Except.ok
                  [⟨"p1".toList, ⟨"BASE".toList, "USDC".toList, []⟩,
                    ⟨"BTC".toList, "BTC".toList, []⟩, "base".toList, 100, 100000000,
                    [], 100, [], [], [], 0⟩], fun _ => true⟩,
              ⟨"p2".toList, "dex".toList, fun _ _ _ _ => Except.error ("down".toList),
                fun _ => true⟩,
              ⟨"p3".toList, "private".toList,
                fun _ _ _ _ => Except.ok
                  [⟨"p3".toList, ⟨"BASE".toList, "USDC".toList, []⟩,
                    ⟨"BTC".toList, "BTC".toList, []⟩, "base".toList, 100, 100000000,
                    [], 250, [], [], [], 0⟩], fun _ => true⟩,
              ⟨"p4".toList, "dex".toList,
                fun _ _ _ _ => Except.ok
                  [⟨"p4".toList, ⟨"BASE".toList, "USDC".toList, []⟩,
                    ⟨"BTC".toList, "BTC".toList, []⟩, "base".toList, 100, 100000000,
                    [], 180, [], [], [], 0⟩], fun _ => true⟩],
              [], fun _ => false, fun _ _ => Except.error []⟩),
        r.expectedOutputRaw ≤ q.expectedOutputRaw :=
  C1_best_quote_is_max _ _ _ _ _ _ _ rfl (by decide)

/-- The (chain, balance) pairs `noQuotesError` actually inspects over a
given chain list: chains with a configured USDC contract whose balance
RPC succeeds. -/
def checkedBalancesOf (m : Manager) (sender : GoStr) (chains : List GoStr) :
    List (GoStr × Int) :=
  chains.filterMap fun chain =>
    if m.usdcContracts chain then
      match m.usdcBalance chain sender with
      | Except.ok bal => some (chain, bal)
      | Except.error _ => none
    else none

/-- The (chain, balance) pairs inspected over the Manager's RPC chains. -/
def checkedBalances (m : Manager) (sender : GoStr) : List (GoStr × Int) :=
  checkedBalancesOf m sender m.rpcChains

lemma checkedBalancesOf_cons_skip {m : Manager} {sender chain : GoStr} {rest : List GoStr}
    (hc : m.usdcContracts chain = false) :
    checkedBalancesOf m sender (chain :: rest) = checkedBalancesOf m sender rest := by
  simp [checkedBalancesOf, List.filterMap_cons, hc]

lemma checkedBalancesOf_cons_err {m : Manager} {sender chain : GoStr} {rest : List GoStr}
    {e : GoStr} (hc : m.usdcContracts chain = true)
    (hb : m.usdcBalance chain sender = Except.error e) :
    checkedBalancesOf m sender (chain :: rest) = checkedBalancesOf m sender rest := by
  simp [checkedBalancesOf, List.filterMap_cons, hc, hb]

lemma checkedBalancesOf_cons_ok {m : Manager} {sender chain : GoStr} {rest : List GoStr}
    {bal : Int} (hc : m.usdcContracts chain = true)
    (hb : m.usdcBalance chain sender = Except.ok bal) :
    checkedBalancesOf m sender (chain :: rest) =
      (chain, bal) :: checkedBalancesOf m sender rest := by
  simp [checkedBalancesOf, List.filterMap_cons, hc, hb]

lemma noQuotesScan_eq (m : Manager) (sender : GoStr) (required : Int) :
    ∀ chains : List GoStr,
      noQuotesScan m sender required chains =
        (checkedBalancesOf m sender chains,
         (checkedBalancesOf m sender chains).all fun x => decide (x.2 < required),
         !(checkedBalancesOf m sender chains).isEmpty) := by
  intro chains
  induction chains with
  | nil => rfl
  | cons chain rest ih =>
    cases hc : m.usdcContracts chain with
    | false =>
      rw [checkedBalancesOf_cons_skip hc]
      have hL : noQuotesScan m sender required (chain :: rest) =
          noQuotesScan m sender required rest := by
        simp [noQuotesScan, hc]
      rw [hL]
      exact ih
    | true =>
      cases hb : m.usdcBalance chain sender with
      | error e =>
        rw [checkedBalancesOf_cons_err hc hb]
        have hL : noQuotesScan m sender required (chain :: rest) =
            noQuotesScan m sender required rest := by
          simp [noQuotesScan, hc, hb]
        rw [hL]
        exact ih
      | ok bal =>
        rw [checkedBalancesOf_cons_ok hc hb]
        have hL : noQuotesScan m sender required (chain :: rest) =
            ((chain, bal) :: (noQuotesScan m sender required rest).1,
             decide (bal < required) && (noQuotesScan m sender required rest).2.1, true) := by
          simp [noQuotesScan, hc, hb]
        rw [hL, ih]
        simp [List.all_cons]

/-- C2: with the hint filter passing and no provider yielding any quote,
`BestQuote` fails with the synthesized `noQuotesError`, which re-checks
the sender's live balances: it is the insufficient-balance error listing
the checked (chain, balance) snapshots exactly when at least one chain
was checked and every checked balance is below the required micro-USDC
threshold, and the plain no-quotes error otherwise (no checkable chain,
or some checked chain had enough). -/
theorem C2_no_quotes_error (m : Manager) (toAsset : Asset) (usd : ℚ) (dest sender : GoStr)
    (hint : RoutingHint) (ps : List SwapProvider)
    (hf : m.filterProviders hint = Except.ok ps)
    (hq : successfulQuotes toAsset usd dest sender ps = []) :
    (m.BestQuote toAsset usd dest sender hint).1 =
      Except.error (m.noQuotesError toAsset usd sender) ∧
    (checkedBalances m sender ≠ [] ∧
        (∀ x ∈ checkedBalances m sender, x.2 < requiredUSDCmicro usd) →
      m.noQuotesError toAsset usd sender =
        MgrError.insufficientBalance usd toAsset (checkedBalances m sender)) ∧
    ((checkedBalances m sender = [] ∨
        ∃ x ∈ checkedBalances m sender, requiredUSDCmicro usd ≤ x.2) →
      m.noQuotesError toAsset usd sender = MgrError.noQuotesAvailable toAsset) := by
  refine ⟨?_, ?_, ?_⟩
  · have hfst := bestQuoteScan_fst toAsset usd dest sender ps none
    rw [hq] at hfst
    unfold Manager.BestQuote
    rw [hf]
    dsimp only
    rw [hfst]
    rfl
  · rintro ⟨hne, hall⟩
    unfold Manager.noQuotesError
    rw [noQuotesScan_eq]
    dsimp only
    have h1 : (checkedBalancesOf m sender m.rpcChains).isEmpty = false :=
      List.isEmpty_eq_false.mpr hne
    have h2 : (checkedBalancesOf m sender m.rpcChains).all
        (fun x => decide (x.2 < requiredUSDCmicro usd)) = true := by
      rw [List.all_eq_true]
      intro x hx
      exact decide_eq_true (hall x hx)
    rw [h1, h2]
    rfl
  · intro hcase
    unfold Manager.noQuotesError
    rw [noQuotesScan_eq]
    dsimp only
    rcases hcase with hnil | ⟨x, hx, hge⟩
    · have h1 : (checkedBalancesOf m sender m.rpcChains).isEmpty = true :=
        List.isEmpty_iff.mpr hnil
      rw [h1]
      rfl
    · have h2 : (checkedBalancesOf m sender m.rpcChains).all
          (fun y => decide (y.2 < requiredUSDCmicro usd)) = false := by
        rw [List.all_eq_false]
        exact ⟨x, hx, by simpa using not_lt.mpr hge⟩
      rw [h2]
      simp

/-- A one-provider manager whose provider always errors, with one RPC
chain holding a 5-micro-USDC balance; used to exercise the
insufficient-balance branch of the no-quotes diagnostic. -/
def mgrNoQuotes : Manager :=
  ⟨[⟨"p".toList, "dex".toList, fun _ _ _ _ => Except.error [], fun _ => true⟩],
   ["base".toList], fun _ => true, fun _ _ => Except.ok 5⟩

def assetXMR : Asset := ⟨"XMR".toList, "XMR".toList, []⟩

theorem C2_no_quotes_error_witness :
    (mgrNoQuotes.BestQuote assetXMR 100 [] [] ⟨[], []⟩).1 =
      Except.error (mgrNoQuotes.noQuotesError assetXMR 100 []) ∧
    (checkedBalances mgrNoQuotes [] ≠ [] ∧
        (∀ x ∈ checkedBalances mgrNoQuotes [], x.2 < requiredUSDCmicro 100) →
      mgrNoQuotes.noQuotesError assetXMR 100 [] =
        MgrError.insufficientBalance 100 assetXMR (checkedBalances mgrNoQuotes [])) ∧
    ((checkedBalances mgrNoQuotes [] = [] ∨
        ∃ x ∈ checkedBalances mgrNoQuotes [], requiredUSDCmicro 100 ≤ x.2) →
      mgrNoQuotes.noQuotesError assetXMR 100 [] = MgrError.noQuotesAvailable assetXMR) :=
  C2_no_quotes_error mgrNoQuotes assetXMR 100 [] [] ⟨[], []⟩ mgrNoQuotes.providers rfl
    (by decide)

/-- C8: a routing hint of type "provider" or "category" that matches none
of the Manager's providers makes `BestQuote` fail with the
no-providers-match error and an empty invocation trace: no provider's
`Quote` call is made. -/
theorem C8_hint_no_match (m : Manager) (toAsset : Asset) (usd : ℚ) (dest sender : GoStr)
    (hint : RoutingHint)
    (htype : hint.type = ("provider".toList : GoStr) ∨
      hint.type = ("category".toList : GoStr))
    (hnone : ∀ p ∈ m.providers, hintMatches hint p = false) :
    m.BestQuote toAsset usd dest sender hint =
      (Except.error (MgrError.noProvidersMatchHint hint.value), []) := by
  have hne : hint.type ≠ [] := by
    rcases htype with h | h <;> rw [h] <;> simp
  have hfilter : m.providers.filter (hintMatches hint) = [] :=
    List.filter_eq_nil_iff.mpr fun a ha => by simp [hnone a ha]
  unfold Manager.BestQuote Manager.filterProviders
  rw [if_neg hne, hfilter]
  rfl

theorem C8_hint_no_match_witness :
    (Manager.BestQuote
      ⟨[⟨"p1".toList, "dex".toList, fun _ _ _ _ => Except.ok [], fun _ => true⟩],
       [], fun _ => false, fun _ _ => Except.error []⟩
      assetXMR 100 [] [] ⟨"category".toList, "zzz".toList⟩) =
      (Except.error (MgrError.noProvidersMatchHint ("zzz".toList)), []) :=
  C8_hint_no_match _ assetXMR 100 [] [] ⟨"category".toList, "zzz".toList⟩
    (Or.inr rfl) (by decide)

/-- The fields of the thornode quote response that flow into the returned
`swaps.Quote`; fee/gas details land in the omitted `ExtraData` bag. -/
structure ThorQuoteResp where
  expectedAmountOut : GoStr
  memo : GoStr
  router : GoStr
  inboundAddress : GoStr
  expiry : Int
deriving DecidableEq

/-- `int64(usdAmount * 1e8)`: the thornode amount in 8-decimal units. -/
def thorAmount (usd : ℚ) : Int := int64Trunc (usd * 100000000)

/-- `thorchain.Provider` (src/unnamed/part_013) with its environment: the
`SourceAssets` map as an association list (rpcKey, thorchain asset) in
iteration order, key membership of the RPC-client and USDC-contract maps,
the `balances.USDCBalance` RPC, and the thornode quote endpoint as a
function of (source asset, target asset string, destination, amount). -/
structure ThorProvider where
  sourceAssets : List (GoStr × GoStr)
  rpcClients : GoStr → Bool
  usdcContracts : GoStr → Bool
  usdcBalance : GoStr → GoStr → Except GoStr Int
  getQuote : GoStr → GoStr → GoStr → Int → Except GoStr ThorQuoteResp

/-- The quote appended for one source chain. `mustParseAsset` aborts the
program on a parse failure; modelled with a default value, unreachable
for the well-formed `SourceAssets` constants. `ExpectedOutputRaw` is
`SetString(ExpectedAmountOut, 10)`, modelled as the digit value. -/
def mkThorQuote (toAsset : Asset) (usd : ℚ) (e : GoStr × GoStr) (resp : ThorQuoteResp) :
    Quote :=
  ⟨"thorchain".toList, (ParseAsset e.2).getD ⟨[], [], []⟩, toAsset, e.1, usd,
   requiredUSDCmicro usd, resp.expectedAmountOut, Int.ofNat (digitsVal resp.expectedAmountOut),
   resp.memo, resp.router, resp.inboundAddress, resp.expiry⟩

/-- The body of the per-chain loop of `thorchain.Provider.Quote`
(src/unnamed/part_013 lines 49-119): the quote this chain contributes, or
`none` when the chain is skipped (no RPC client, no USDC contract,
balance RPC error, insufficient balance) or its thornode quote call
fails. Every skip is a `continue` in the source, never an error. -/
def thorChainQuote (p : ThorProvider) (toAsset : Asset) (usd : ℚ) (dest sender : GoStr)
    (e : GoStr × GoStr) : Option Quote :=
  if p.rpcClients e.1 then
    if p.usdcContracts e.1 then
      match p.usdcBalance e.1 sender with
      | Except.error _ => none
      | Except.ok bal =>
        if bal < requiredUSDCmicro usd then none
        else
          match p.getQuote e.2 toAsset.string dest (thorAmount usd) with
          | Except.error _ => none
          | Except.ok resp => some (mkThorQuote toAsset usd e resp)
    else none
  else none

/-- `thorchain.Provider.Quote`: the loop appends each chain's
contribution; an empty result is the no-quotes error. -/
def ThorProvider.Quote (p : ThorProvider) (toAsset : Asset) (usd : ℚ) (dest sender : GoStr) :
    Except GoStr (List Quote) :=
  if (p.sourceAssets.filterMap (thorChainQuote p toAsset usd dest sender)).isEmpty then
    Except.error ("no thorchain quotes available for ".toList ++ toAsset.string)
  else Except.ok (p.sourceAssets.filterMap (thorChainQuote p toAsset usd dest sender))

lemma thorChainQuote_fromChain {p : ThorProvider} {toAsset : Asset} {usd : ℚ}
    {dest sender : GoStr} {e : GoStr × GoStr} {q : Quote}
    (h : thorChainQuote p toAsset usd dest sender e = some q) : q.fromChain = e.1 := by
  unfold thorChainQuote at h
  split at h
  · split at h
    · split at h
      · exact absurd h (by simp)
      · split at h
        · exact absurd h (by simp)
        · split at h
          · exact absurd h (by simp)
          · rw [← Option.some.inj h]
            rfl
    · exact absurd h (by simp)
  · exact absurd h (by simp)

lemma thorChainQuote_insufficient {p : ThorProvider} {toAsset : Asset} {usd : ℚ}
    {dest sender : GoStr} {e : GoStr × GoStr} {bal : Int}
    (hb : p.usdcBalance e.1 sender = Except.ok bal) (hlt : bal < requiredUSDCmicro usd) :
    thorChainQuote p toAsset usd dest sender e = none := by
  unfold thorChainQuote
  by_cases h1 : p.rpcClients e.1 = true
  · rw [if_pos h1]
    by_cases h2 : p.usdcContracts e.1 = true
    · rw [if_pos h2, hb]
      dsimp only
      rw [if_pos hlt]
    · rw [if_neg h2]
  · rw [if_neg h1]

lemma thorChainQuote_eligible {p : ThorProvider} {toAsset : Asset} {usd : ℚ}
    {dest sender : GoStr} {e : GoStr × GoStr} {bal : Int} {resp : ThorQuoteResp}
    (h1 : p.rpcClients e.1 = true) (h2 : p.usdcContracts e.1 = true)
    (hb : p.usdcBalance e.1 sender = Except.ok bal) (hge : requiredUSDCmicro usd ≤ bal)
    (hr : p.getQuote e.2 toAsset.string dest (thorAmount usd) = Except.ok resp) :
    thorChainQuote p toAsset usd dest sender e = some (mkThorQuote toAsset usd e resp) := by
  unfold thorChainQuote
  rw [if_pos h1, if_pos h2, hb]
  dsimp only
  rw [if_neg (not_lt.mpr hge), hr]

lemma nodup_keys_inj {α β : Type} :
    ∀ (l : List (α × β)), (l.map Prod.fst).Nodup →
      ∀ a ∈ l, ∀ b ∈ l, a.1 = b.1 → a = b := by
  intro l
  induction l with
  | nil => intro _ a ha; exact absurd ha (List.not_mem_nil a)
  | cons x rest ih =>
    intro hnd a ha b hb heq
    simp only [List.map_cons, List.nodup_cons] at hnd
    obtain ⟨hx, hrest⟩ := hnd
    rcases List.mem_cons.mp ha with rfl | ha2
    · rcases List.mem_cons.mp hb with rfl | hb2
      · rfl
      · exact absurd (by rw [heq]; exact List.mem_map_of_mem Prod.fst hb2) hx
    · rcases List.mem_cons.mp hb with rfl | hb2
      · exact absurd (by rw [← heq]; exact List.mem_map_of_mem Prod.fst ha2) hx
      · exact ih hrest a ha2 b hb2 heq

/-- Balance gating of `thorchain.Provider.Quote` (with the source-asset
map's keys distinct, as Go map keys are): (i) the call errors exactly
when the per-chain loop contributes zero quotes; (ii) a chain whose
balance check succeeds below the required amount is skipped without
error — no quote of a successful result comes from it; (iii) a chain
passing every gate (RPC client, USDC contract, sufficient balance,
successful venue quote) contributes its quote to the successful
result — so two offered chains with one sufficient yield exactly the
sufficient chain's quote. -/
lemma thor_balance_gating (p : ThorProvider) (toAsset : Asset) (usd : ℚ)
    (dest sender : GoStr) (hkeys : (p.sourceAssets.map Prod.fst).Nodup) :
    (p.Quote toAsset usd dest sender =
        Except.error ("no thorchain quotes available for ".toList ++ toAsset.string) ↔
      p.sourceAssets.filterMap (thorChainQuote p toAsset usd dest sender) = []) ∧
    (∀ e ∈ p.sourceAssets, ∀ bal, p.usdcBalance e.1 sender = Except.ok bal →
      bal < requiredUSDCmicro usd →
      ∀ qs, p.Quote toAsset usd dest sender = Except.ok qs →
        ∀ q ∈ qs, q.fromChain ≠ e.1) ∧
    (∀ e ∈ p.sourceAssets, p.rpcClients e.1 = true → p.usdcContracts e.1 = true →
      ∀ bal, p.usdcBalance e.1 sender = Except.ok bal → requiredUSDCmicro usd ≤ bal →
      ∀ resp, p.getQuote e.2 toAsset.string dest (thorAmount usd) = Except.ok resp →
      ∀ qs, p.Quote toAsset usd dest sender = Except.ok qs →
        mkThorQuote toAsset usd e resp ∈ qs) := by
  refine ⟨?_, ?_, ?_⟩
  · by_cases he :
        (p.sourceAssets.filterMap (thorChainQuote p toAsset usd dest sender)).isEmpty = true
    · constructor
      · intro _; exact List.isEmpty_iff.mp he
      · intro _
        unfold ThorProvider.Quote
        rw [if_pos he]
    · constructor
      · intro hq
        unfold ThorProvider.Quote at hq
        rw [if_neg he] at hq
        exact absurd hq (by simp)
      · intro hnil
        exact absurd (List.isEmpty_iff.mpr hnil) he
  · rintro e he bal hb hlt qs hq q hqmem heq
    unfold ThorProvider.Quote at hq
    split at hq
    · exact absurd hq (by simp)
    · obtain rfl := Except.ok.inj hq
      obtain ⟨e2, he2, hfe2⟩ := List.mem_filterMap.mp hqmem
      have hch : q.fromChain = e2.1 := thorChainQuote_fromChain hfe2
      have hkey : e2.1 = e.1 := by rw [← hch, heq]
      have hee : e2 = e := nodup_keys_inj p.sourceAssets hkeys e2 he2 e he hkey
      rw [hee] at hfe2
      rw [thorChainQuote_insufficient hb hlt] at hfe2
      exact absurd hfe2 (by simp)
  · rintro e he h1 h2 bal hb hge resp hr qs hq
    unfold ThorProvider.Quote at hq
    split at hq
    · exact absurd hq (by simp)
    · obtain rfl := Except.ok.inj hq
      exact List.mem_filterMap.mpr ⟨e, he, thorChainQuote_eligible h1 h2 hb hge hr⟩

/-- A two-chain thorchain provider where only "base" holds a sufficient
USDC balance for a 100 USD request; the venue quote endpoint always
succeeds. -/
def thorTwoChains : ThorProvider :=
  ⟨[("avalanche".toList, "AVAX.USDC".toList), ("base".toList, "BASE.USDC".toList)],
   fun _ => true, fun _ => true,
   fun chain _ => if chain = ("base".toList : GoStr) then Except.ok 200000000 else Except.ok 5,
   fun _ _ _ _ => Except.ok ⟨"42".toList, "memo".toList, [], [], 0⟩⟩

/-- The houdini-xmr venue quote response: `AmountOut` is a `float64`,
carried here as its rendered decimal string (the source immediately
formats it with `%g` before `parseToBigInt`). -/
structure XMRQuoteResp where
  amountOut : GoStr
  inQuoteID : GoStr
  outQuoteID : GoStr
deriving DecidableEq

/-- `houdini.XMRProvider` (src/unnamed/part_003 lines 278-355) with its
environment: the `SupportedSourceChains()` list, the `SourceSymbol`
static map, key membership of the RPC-client and `thorchain.USDCContracts`
maps, the balance RPC, the target-symbol resolution (the `Hints`
shortcut and the `AssetToSymbol` static lookup, folded into one lookup —
the claim concerns only whether it resolves), and the `GetQuoteXMR`
venue call as a function of (fromSymbol, toSymbol, usdAmount). -/
structure XMRProvider where
  sourceChains : List GoStr
  sourceSymbol : GoStr → Option GoStr
  rpcClients : GoStr → Bool
  usdcContracts : GoStr → Bool
  usdcBalance : GoStr → GoStr → Except GoStr Int
  resolveSymbol : Asset → Option GoStr
  getQuoteXMR : GoStr → GoStr → ℚ → Except GoStr XMRQuoteResp

/-- houdini's `mustParseAsset`: a switch mapping a source-chain key to
its USDC asset (no possible abort; `a, _ := ParseAsset(...)` ignores the
error, modelled by `getD` the zero Asset). -/
def houdiniSourceAsset (chain : GoStr) : Asset :=
  if chain = ("avalanche".toList : GoStr) then
    (ParseAsset ("AVAX.USDC-0xB97EF9Ef8734C71904D8002F8B6BC66Dd9c48a6E".toList)).getD
      ⟨[], [], []⟩
  else if chain = ("base".toList : GoStr) then
    (ParseAsset ("BASE.USDC-0x833589fCD6eDb6E08f4c7C32D4f71b54bdA02913".toList)).getD
      ⟨[], [], []⟩
  else ⟨goToUpper chain, "USDC".toList, []⟩

/-- The quote appended for one source chain of the houdini-xmr provider:
`ExpectedOutputRaw` is `parseToBigInt` of the rendered `AmountOut`;
Memo, Router, VaultAddress and Expiry keep their zero values (the source
sets neither), and the `ExtraData` bag is omitted as before. -/
def mkXMRQuote (toAsset : Asset) (usd : ℚ) (chain : GoStr) (resp : XMRQuoteResp) : Quote :=
  ⟨"houdini-xmr".toList, houdiniSourceAsset chain, toAsset, chain, usd,
   requiredUSDCmicro usd, resp.amountOut, Int.ofNat (parseToBigInt resp.amountOut),
   [], [], [], 0⟩

/-- The body of the per-chain loop of `XMRProvider.Quote`: the quote this
chain contributes, or `none` when it is skipped (no source symbol, no RPC
client, no USDC contract, balance RPC error, insufficient balance) or its
venue quote call fails. Every skip is a `continue`, never an error. -/
def xmrChainQuote (p : XMRProvider) (toAsset : Asset) (toSymbol : GoStr) (usd : ℚ)
    (sender : GoStr) (chain : GoStr) : Option Quote :=
  match p.sourceSymbol chain with
  | none => none
  | some fromSymbol =>
    if p.rpcClients chain then
      if p.usdcContracts chain then
        match p.usdcBalance chain sender with
        | Except.error _ => none
        | Except.ok bal =>
          if bal < requiredUSDCmicro usd then none
          else
            match p.getQuoteXMR fromSymbol toSymbol usd with
            | Except.error _ => none
            | Except.ok resp => some (mkXMRQuote toAsset usd chain resp)
      else none
    else none

/-- `XMRProvider.Quote` (src/unnamed/part_003 lines 278-355): the $50
floor and the target-symbol resolution are checked before any chain is
considered; then the loop appends each chain's contribution and an empty
result is the no-quotes error. The `%.2f`-formatted amount inside the
minimum-amount message is not modelled. -/
def XMRProvider.Quote (p : XMRProvider) (toAsset : Asset) (usd : ℚ) (dest sender : GoStr) :
    Except GoStr (List Quote) :=
  if usd < 50 then Except.error ("houdini-xmr: minimum swap amount is $50".toList)
  else
    match p.resolveSymbol toAsset with
    | none => Except.error ("houdini-xmr: unsupported target asset ".toList ++ toAsset.string)
    | some toSymbol =>
      if (p.sourceChains.filterMap (xmrChainQuote p toAsset toSymbol usd sender)).isEmpty then
        Except.error ("houdini-xmr: no quotes available for ".toList ++ toAsset.string)
      else Except.ok (p.sourceChains.filterMap (xmrChainQuote p toAsset toSymbol usd sender))

lemma xmrChainQuote_fromChain {p : XMRProvider} {toAsset : Asset} {toSymbol : GoStr}
    {usd : ℚ} {sender chain : GoStr} {q : Quote}
    (h : xmrChainQuote p toAsset toSymbol usd sender chain = some q) : q.fromChain = chain := by
  unfold xmrChainQuote at h
  split at h
  · exact absurd h (by simp)
  · split at h
    · split at h
      · split at h
        · exact absurd h (by simp)
        · split at h
          · exact absurd h (by simp)
          · split at h
            · exact absurd h (by simp)
            · rw [← Option.some.inj h]
              rfl
      · exact absurd h (by simp)
    · exact absurd h (by simp)

lemma xmrChainQuote_insufficient {p : XMRProvider} {toAsset : Asset} {toSymbol : GoStr}
    {usd : ℚ} {sender chain : GoStr} {bal : Int}
    (hb : p.usdcBalance chain sender = Except.ok bal) (hlt : bal < requiredUSDCmicro usd) :
    xmrChainQuote p toAsset toSymbol usd sender chain = none := by
  unfold xmrChainQuote
  cases hs : p.sourceSymbol chain with
  | none => rfl
  | some fromSym =>
    dsimp only
    by_cases h1 : p.rpcClients chain = true
    · rw [if_pos h1]
      by_cases h2 : p.usdcContracts chain = true
      · rw [if_pos h2, hb]
        dsimp only
        rw [if_pos hlt]
      · rw [if_neg h2]
    · rw [if_neg h1]

lemma xmrChainQuote_eligible {p : XMRProvider} {toAsset : Asset} {toSymbol : GoStr}
    {usd : ℚ} {sender chain fromSym : GoStr} {bal : Int} {resp : XMRQuoteResp}
    (hs : p.sourceSymbol chain = some fromSym)
    (h1 : p.rpcClients chain = true) (h2 : p.usdcContracts chain = true)
    (hb : p.usdcBalance chain sender = Except.ok bal) (hge : requiredUSDCmicro usd ≤ bal)
    (hr : p.getQuoteXMR fromSym toSymbol usd = Except.ok resp) :
    xmrChainQuote p toAsset toSymbol usd sender chain =
      some (mkXMRQuote toAsset usd chain resp) := by
  unfold xmrChainQuote
  rw [hs]
  dsimp only
  rw [if_pos h1, if_pos h2, hb]
  dsimp only
  rw [if_neg (not_lt.mpr hge), hr]

/-- Balance gating of `XMRProvider.Quote` once its pre-checks pass (the
amount is not below the $50 floor and the target symbol resolves):
(i) the call errors exactly when the per-chain loop contributes zero
quotes; (ii) a chain whose balance check succeeds below the required
amount is skipped without error; (iii) a chain passing every gate
contributes its quote. -/
lemma xmr_balance_gating (p : XMRProvider) (toAsset : Asset) (usd : ℚ)
    (dest sender : GoStr) (toSym : GoStr)
    (hmin : ¬(usd < 50)) (hres : p.resolveSymbol toAsset = some toSym) :
    (p.Quote toAsset usd dest sender =
        Except.error ("houdini-xmr: no quotes available for ".toList ++ toAsset.string) ↔
      p.sourceChains.filterMap (xmrChainQuote p toAsset toSym usd sender) = []) ∧
    (∀ chain ∈ p.sourceChains, ∀ bal, p.usdcBalance chain sender = Except.ok bal →
      bal < requiredUSDCmicro usd →
      ∀ qs, p.Quote toAsset usd dest sender = Except.ok qs →
        ∀ q ∈ qs, q.fromChain ≠ chain) ∧
    (∀ chain ∈ p.sourceChains, ∀ fromSym, p.sourceSymbol chain = some fromSym →
      p.rpcClients chain = true → p.usdcContracts chain = true →
      ∀ bal, p.usdcBalance chain sender = Except.ok bal → requiredUSDCmicro usd ≤ bal →
      ∀ resp, p.getQuoteXMR fromSym toSym usd = Except.ok resp →
      ∀ qs, p.Quote toAsset usd dest sender = Except.ok qs →
        mkXMRQuote toAsset usd chain resp ∈ qs) := by
  have hquote : p.Quote toAsset usd dest sender =
      (if (p.sourceChains.filterMap (xmrChainQuote p toAsset toSym usd sender)).isEmpty then
        Except.error ("houdini-xmr: no quotes available for ".toList ++ toAsset.string)
      else Except.ok (p.sourceChains.filterMap (xmrChainQuote p toAsset toSym usd sender))) := by
    unfold XMRProvider.Quote
    rw [if_neg hmin, hres]
  refine ⟨?_, ?_, ?_⟩
  · by_cases he : (p.sourceChains.filterMap (xmrChainQuote p toAsset toSym usd sender)).isEmpty
        = true
    · constructor
      · intro _; exact List.isEmpty_iff.mp he
      · intro _; rw [hquote, if_pos he]
    · constructor
      · intro hq
        rw [hquote, if_neg he] at hq
        exact absurd hq (by simp)
      · intro hnil
        exact absurd (List.isEmpty_iff.mpr hnil) he
  · rintro chain hch bal hb hlt qs hq q hqmem heq
    rw [hquote] at hq
    split at hq
    · exact absurd hq (by simp)
    · obtain rfl := Except.ok.inj hq
      obtain ⟨c2, hc2, hf2⟩ := List.mem_filterMap.mp hqmem
      have hcc : q.fromChain = c2 := xmrChainQuote_fromChain hf2
      rw [heq] at hcc
      rw [← hcc] at hf2
      rw [xmrChainQuote_insufficient hb hlt] at hf2
      exact absurd hf2 (by simp)
  · rintro chain hch fromSym hs h1 h2 bal hb hge resp hr qs hq
    rw [hquote] at hq
    split at hq
    · exact absurd hq (by simp)
    · obtain rfl := Except.ok.inj hq
      exact List.mem_filterMap.mpr ⟨chain, hch, xmrChainQuote_eligible hs h1 h2 hb hge hr⟩

/-- A houdini-xmr provider with two source chains where only "base"
holds a sufficient USDC balance for a $100 request; the symbol lookups
and the venue endpoint always succeed. -/
def xmrTwoChains : XMRProvider :=
  ⟨["avalanche".toList, "base".toList],
   fun chain => if chain = ("base".toList : GoStr) then some ("USDCBASE".toList)
     else some ("USDCAVAXC".toList),
   fun _ => true, fun _ => true,
   fun chain _ => if chain = ("base".toList : GoStr) then Except.ok 200000000 else Except.ok 5,
   fun _ => some ("XMR".toList),
   fun _ _ _ => Except.ok ⟨"1.5".toList, "in".toList, "out".toList⟩⟩

/-- C7 counterexample: the claim quantifies over every provider Quote
call, but `XMRProvider.Quote` rejects any request under $50 before any
chain is considered. At a $40 request, "base" is an offered chain whose
balance (200000000 micro-USDC) is well above the required 40000000, and
the venue endpoint succeeds — yet the call returns the minimum-amount
error and zero quotes, not one quote for the sufficient chain. -/
theorem C7_counterexample :
    ("base".toList : GoStr) ∈ xmrTwoChains.sourceChains ∧
    xmrTwoChains.usdcBalance ("base".toList) ("s".toList) = Except.ok 200000000 ∧
    requiredUSDCmicro 40 ≤ 200000000 ∧
    xmrTwoChains.Quote assetXMR 40 ("d".toList) ("s".toList) =
      Except.error ("houdini-xmr: minimum swap amount is $50".toList) :=
  ⟨by decide, rfl, by norm_num [requiredUSDCmicro, int64Trunc], rfl⟩

/-- C7 (amended): per-chain balance gating holds within each cited
provider's quote loop — unconditionally for the router-deposit
(thorchain) provider, and for the houdini-xmr provider once its
pre-checks pass (amount not below the $50 floor, target symbol
resolvable; below the floor the call errors before any chain is
considered, as the counterexample shows). In each loop: the call errors
exactly when zero quotes result across all chains; a chain whose balance
is below the requested amount contributes no quote and no error; and a
chain passing every gate contributes exactly its quote. -/
theorem C7_balance_gating_amended
    (pT : ThorProvider) (toA : Asset) (usdT : ℚ) (destT senderT : GoStr)
    (pX : XMRProvider) (toAX : Asset) (usdX : ℚ) (destX senderX : GoStr) (toSym : GoStr)
    (hkeys : (pT.sourceAssets.map Prod.fst).Nodup)
    (hmin : ¬(usdX < 50)) (hres : pX.resolveSymbol toAX = some toSym) :
    ((pT.Quote toA usdT destT senderT =
        Except.error ("no thorchain quotes available for ".toList ++ toA.string) ↔
      pT.sourceAssets.filterMap (thorChainQuote pT toA usdT destT senderT) = []) ∧
    (∀ e ∈ pT.sourceAssets, ∀ bal, pT.usdcBalance e.1 senderT = Except.ok bal →
      bal < requiredUSDCmicro usdT →
      ∀ qs, pT.Quote toA usdT destT senderT = Except.ok qs →
        ∀ q ∈ qs, q.fromChain ≠ e.1) ∧
    (∀ e ∈ pT.sourceAssets, pT.rpcClients e.1 = true → pT.usdcContracts e.1 = true →
      ∀ bal, pT.usdcBalance e.1 senderT = Except.ok bal → requiredUSDCmicro usdT ≤ bal →
      ∀ resp, pT.getQuote e.2 toA.string destT (thorAmount usdT) = Except.ok resp →
      ∀ qs, pT.Quote toA usdT destT senderT = Except.ok qs →
        mkThorQuote toA usdT e resp ∈ qs)) ∧
    ((pX.Quote toAX usdX destX senderX =
        Except.error ("houdini-xmr: no quotes available for ".toList ++ toAX.string) ↔
      pX.sourceChains.filterMap (xmrChainQuote pX toAX toSym usdX senderX) = []) ∧
    (∀ chain ∈ pX.sourceChains, ∀ bal, pX.usdcBalance chain senderX = Except.ok bal →
      bal < requiredUSDCmicro usdX →
      ∀ qs, pX.Quote toAX usdX destX senderX = Except.ok qs →
        ∀ q ∈ qs, q.fromChain ≠ chain) ∧
    (∀ chain ∈ pX.sourceChains, ∀ fromSym, pX.sourceSymbol chain = some fromSym →
      pX.rpcClients chain = true → pX.usdcContracts chain = true →
      ∀ bal, pX.usdcBalance chain senderX = Except.ok bal → requiredUSDCmicro usdX ≤ bal →
      ∀ resp, pX.getQuoteXMR fromSym toSym usdX = Except.ok resp →
      ∀ qs, pX.Quote toAX usdX destX senderX = Except.ok qs →
        mkXMRQuote toAX usdX chain resp ∈ qs)) :=
  ⟨thor_balance_gating pT toA usdT destT senderT hkeys,
   xmr_balance_gating pX toAX usdX destX senderX toSym hmin hres⟩

theorem C7_balance_gating_amended_witness :
    ((thorTwoChains.Quote assetXMR 100 [] [] =
        Except.error ("no thorchain quotes available for ".toList ++ assetXMR.string) ↔
      thorTwoChains.sourceAssets.filterMap (thorChainQuote thorTwoChains assetXMR 100 [] []) =
        []) ∧
    (∀ e ∈ thorTwoChains.sourceAssets, ∀ bal,
      thorTwoChains.usdcBalance e.1 [] = Except.ok bal →
      bal < requiredUSDCmicro 100 →
      ∀ qs, thorTwoChains.Quote assetXMR 100 [] [] = Except.ok qs →
        ∀ q ∈ qs, q.fromChain ≠ e.1) ∧
    (∀ e ∈ thorTwoChains.sourceAssets, thorTwoChains.rpcClients e.1 = true →
      thorTwoChains.usdcContracts e.1 = true →
      ∀ bal, thorTwoChains.usdcBalance e.1 [] = Except.ok bal →
      requiredUSDCmicro 100 ≤ bal →
      ∀ resp, thorTwoChains.getQuote e.2 assetXMR.string [] (thorAmount 100) = Except.ok resp →
      ∀ qs, thorTwoChains.Quote assetXMR 100 [] [] = Except.ok qs →
        mkThorQuote assetXMR 100 e resp ∈ qs)) ∧
    ((xmrTwoChains.Quote assetXMR 100 [] [] =
        Except.error ("houdini-xmr: no quotes available for ".toList ++ assetXMR.string) ↔
      xmrTwoChains.sourceChains.filterMap
        (xmrChainQuote xmrTwoChains assetXMR ("XMR".toList) 100 []) = []) ∧
    (∀ chain ∈ xmrTwoChains.sourceChains, ∀ bal,
      xmrTwoChains.usdcBalance chain [] = Except.ok bal →
      bal < requiredUSDCmicro 100 →
      ∀ qs, xmrTwoChains.Quote assetXMR 100 [] [] = Except.ok qs →
        ∀ q ∈ qs, q.fromChain ≠ chain) ∧
    (∀ chain ∈ xmrTwoChains.sourceChains, ∀ fromSym,
      xmrTwoChains.sourceSymbol chain = some fromSym →
      xmrTwoChains.rpcClients chain = true → xmrTwoChains.usdcContracts chain = true →
      ∀ bal, xmrTwoChains.usdcBalance chain [] = Except.ok bal →
      requiredUSDCmicro 100 ≤ bal →
      ∀ resp, xmrTwoChains.getQuoteXMR fromSym ("XMR".toList) 100 = Except.ok resp →
      ∀ qs, xmrTwoChains.Quote assetXMR 100 [] [] = Except.ok qs →
        mkXMRQuote assetXMR 100 chain resp ∈ qs)) :=
  C7_balance_gating_amended thorTwoChains assetXMR 100 [] [] xmrTwoChains assetXMR 100 [] []
    ("XMR".toList) (by decide) (by decide) rfl

/-- A stage flag of the thornode tx-status response (an optional object
with a `Completed` field). -/
structure StageStatus where
  completed : Bool
deriving DecidableEq

/-- `status.Stages`: `OutboundSigned` and `SwapFinalised` are optional. -/
structure TxStages where
  outboundSigned : Option StageStatus
  swapFinalised : Option StageStatus
deriving DecidableEq

structure TxStatusResp where
  stages : TxStages
deriving DecidableEq

/-- `thorchain.Provider.CheckStatus` (src/unnamed/part_013 lines
243-262), as a function of the result of the `GetTxStatus` call. -/
def thorCheckStatus (getTxStatus : Except GoStr TxStatusResp) : Except GoStr GoStr :=
  match getTxStatus with
  | Except.error e => Except.error e
  | Except.ok status =>
    if (match status.stages.outboundSigned with
        | some o => o.completed
        | none => false) = true then Except.ok ("completed".toList)
    else if status.stages.outboundSigned = none ∧
        (match status.stages.swapFinalised with
         | some sf => sf.completed
         | none => false) = true then Except.ok ("completed".toList)
    else Except.ok ("pending".toList)

/-- C10: for every successfully fetched status response, thorchain
`CheckStatus` returns "completed" exactly when the outbound-signed stage
is completed, or — with no outbound-signed stage (native destinations) —
the swap-finalised stage is completed; in every other case it returns
"pending", and it never returns "failed". -/
theorem C10_thor_status_never_failed (st : TxStatusResp) :
    (thorCheckStatus (Except.ok st) = Except.ok ("completed".toList) ∨
     thorCheckStatus (Except.ok st) = Except.ok ("pending".toList)) ∧
    thorCheckStatus (Except.ok st) ≠ Except.ok ("failed".toList) ∧
    (thorCheckStatus (Except.ok st) = Except.ok ("completed".toList) ↔
      ((∃ o, st.stages.outboundSigned = some o ∧ o.completed = true) ∨
       (st.stages.outboundSigned = none ∧
        ∃ s2, st.stages.swapFinalised = some s2 ∧ s2.completed = true))) := by
  obtain ⟨⟨os, sfo⟩⟩ := st
  have hcf : ("completed".toList : GoStr) ≠ "failed".toList := by decide
  have hpf : ("pending".toList : GoStr) ≠ "failed".toList := by decide
  have hpc : ("pending".toList : GoStr) ≠ "completed".toList := by decide
  rcases os with _ | ⟨⟨ob⟩⟩
  · rcases sfo with _ | ⟨⟨sb⟩⟩
    · refine ⟨Or.inr rfl, fun h => hpf (Except.ok.inj h), ?_⟩
      constructor
      · intro h; exact absurd (Except.ok.inj h) hpc
      · rintro (⟨o, ho, _⟩ | ⟨_, s2, hs2, _⟩)
        · exact absurd ho (by simp)
        · exact absurd hs2 (by simp)
    · cases sb with
      | true =>
        refine ⟨Or.inl rfl, fun h => hcf (Except.ok.inj h), ?_⟩
        constructor
        · intro _; exact Or.inr ⟨rfl, ⟨⟨true⟩, rfl, rfl⟩⟩
        · intro _; rfl
      | false =>
        refine ⟨Or.inr rfl, fun h => hpf (Except.ok.inj h), ?_⟩
        constructor
        · intro h; exact absurd (Except.ok.inj h) hpc
        · rintro (⟨o, ho, _⟩ | ⟨_, s2, hs2, hs2c⟩)
          · exact absurd ho (by simp)
          · obtain rfl := Option.some.inj hs2
            exact absurd hs2c (by decide)
  · cases ob with
    | true =>
      refine ⟨Or.inl rfl, fun h => hcf (Except.ok.inj h), ?_⟩
      constructor
      · intro _; exact Or.inl ⟨⟨true⟩, rfl, rfl⟩
      · intro _; rfl
    | false =>
      refine ⟨Or.inr rfl, fun h => hpf (Except.ok.inj h), ?_⟩
      constructor
      · intro h; exact absurd (Except.ok.inj h) hpc
      · rintro (⟨o, ho, hoc⟩ | ⟨hn, _⟩)
        · obtain rfl := Option.some.inj ho
          exact absurd hoc (by decide)
        · exact absurd hn (by simp)

/-- A cache entry `{value, fetchedAt}`; time instants are modelled as
integers (Go `time.Time` under the `time.Since` subtraction). -/
structure CacheEntry (T : Type) where
  value : T
  fetchedAt : Int
deriving DecidableEq

/-- `resolver.Cache` (src/resolver/cache.go): the entry table as an
association list plus the per-cache TTL (a `time.Duration`, an integer).
The mutex serialises `GetOrFetch`; the single-threaded model folds the
read path and the double-checked write path into one check at the same
instant `now`. -/
structure Cache (T : Type) where
  entries : List (GoStr × CacheEntry T)
  ttl : Int

/-- Association-list lookup, modelling `c.entries[key]` (the newest
binding wins, matching map-overwrite semantics with the insertion
below). -/
def lookupEntry {T : Type} : List (GoStr × CacheEntry T) → GoStr → Option (CacheEntry T)
  | [], _ => none
  | (k, e) :: rest, key => if k = key then some e else lookupEntry rest key

/-- `Cache.GetOrFetch` (src/resolver/cache.go lines 28-52) at instant
`now`: returns the result, the updated cache, and whether `fetchFn` was
invoked. A live entry (`now - fetchedAt < ttl`) is returned without
fetching and without mutation; otherwise the fetch runs once; a failed
fetch caches nothing; a successful fetch is stored with
`fetchedAt = now` (shadowing any stale binding). -/
def Cache.GetOrFetch {T : Type} (c : Cache T) (now : Int) (key : GoStr)
    (fetch : Unit → Except GoStr T) : Except GoStr T × Cache T × Bool :=
  match lookupEntry c.entries key with
  | some e =>
    if now - e.fetchedAt < c.ttl then (Except.ok e.value, c, false)
    else
      match fetch () with
      | Except.error err => (Except.error err, c, true)
      | Except.ok v => (Except.ok v, ⟨(key, ⟨v, now⟩) :: c.entries, c.ttl⟩, true)
  | none =>
    match fetch () with
    | Except.error err => (Except.error err, c, true)
    | Except.ok v => (Except.ok v, ⟨(key, ⟨v, now⟩) :: c.entries, c.ttl⟩, true)

/-- C9: while a live entry exists (`now - fetchedAt < ttl`), `GetOrFetch`
returns its value without invoking the fetch function and leaves the
cache unchanged; once `now - fetchedAt ≥ ttl`, the call invokes the
fetch function again. (At `now = T + ttl - 1` an entry fetched at `T` is
live; at `now = T + ttl + 1` it is not — the witness instantiates both
instants.) -/
theorem C9_cache_ttl {T : Type} (c : Cache T) (now : Int) (key : GoStr)
    (fetch : Unit → Except GoStr T) (e : CacheEntry T)
    (hfound : lookupEntry c.entries key = some e) :
    (now - e.fetchedAt < c.ttl →
      c.GetOrFetch now key fetch = (Except.ok e.value, c, false)) ∧
    (c.ttl ≤ now - e.fetchedAt → (c.GetOrFetch now key fetch).2.2 = true) := by
  constructor
  · intro hl
    unfold Cache.GetOrFetch
    rw [hfound]
    dsimp only
    rw [if_pos hl]
  · intro hg
    unfold Cache.GetOrFetch
    rw [hfound]
    dsimp only
    rw [if_neg (not_lt.mpr hg)]
    cases hfetch : fetch () <;> rfl

def cacheAtZero : Cache Int := ⟨[("k".toList, ⟨7, 0⟩)], 600⟩

def refetchFn : Unit → Except GoStr Int := fun _ => Except.ok 8

theorem C9_cache_ttl_witness :
    cacheAtZero.GetOrFetch 599 ("k".toList) refetchFn = (Except.ok 7, cacheAtZero, false) ∧
    (cacheAtZero.GetOrFetch 601 ("k".toList) refetchFn).2.2 = true :=
  ⟨(C9_cache_ttl cacheAtZero 599 ("k".toList) refetchFn ⟨7, 0⟩ rfl).1 (by decide),
   (C9_cache_ttl cacheAtZero 601 ("k".toList) refetchFn ⟨7, 0⟩ rfl).2 (by decide)⟩
